import Mathlib

/-!
Verification of the background alarm engine of `service-worker.js`.

The engine holds a snapshot of alarm groups (`backgroundAlarmGroups`), a
deduplication record (`lastNotifiedAlarmId`, `lastNotificationTime`), and a
periodic timer handle (`alarmCheckInterval`).  On each tick
`checkBackgroundAlarms` scans the groups in order, skipping disabled groups and
disabled alarms, matches an alarm's `time` string against the padded current
"HH:MM" string, checks the weekday list, consults the dedup record, and emits
at most one notification before returning.

The embedding below is a direct translation of that JavaScript:
* absent `alarms` / `days` fields are modelled as `none` (JavaScript
  `undefined`); iterating or reading `.length` of `undefined` throws a
  `TypeError`, modelled with `Except`;
* the dedup record is the literal pair of module-level variables, compared
  with `!==` against the candidate alarm id and with `> 60000` against the
  elapsed milliseconds;
* `setInterval` / `clearInterval` are modelled by a table of active timer
  handles with a fresh-handle counter.
-/

/-- A trigger ("alarm").  `days = none` models an absent/undefined `days`
field; `time` is the raw string compared against the current "HH:MM". -/
structure Alarm where
  id : String
  label : String
  time : String
  days : Option (List String)
  isEnabled : Bool
deriving Repr, DecidableEq

/-- A group of alarms.  `alarms = none` models an absent/undefined `alarms`
field. -/
structure AlarmGroup where
  name : String
  isEnabled : Bool
  alarms : Option (List Alarm)
deriving Repr, DecidableEq

/-- The dedup record: the two module-level variables `lastNotifiedAlarmId`
(initially `null`, modelled `none`) and `lastNotificationTime` (ms). -/
structure DedupSt where
  lastNotifiedAlarmId : Option String
  lastNotificationTime : Int
deriving Repr, DecidableEq

/-- The current instant as the code observes it through `new Date()`:
weekday index (`getDay`), hours, minutes, and epoch milliseconds
(`getTime`). -/
structure Instant where
  day : Fin 7
  hours : Nat
  minutes : Nat
  epochMs : Int
deriving Repr, DecidableEq

/-- A `TypeError` raised by the tick when it dereferences an absent field. -/
inductive TickErr where
  | typeError : String → TickErr
deriving Repr, DecidableEq

/-- One emitted notification: the arguments of the `showNotification` call. -/
structure Firing where
  alarm : Alarm
  group : AlarmGroup
deriving Repr, DecidableEq

def DAYS_OF_WEEK : List String :=
  ["Sun", "Mon", "Tue", "Wed", "Thu", "Fri", "Sat"]

/-- `String.padStart(2, '0')` as used on hour/minute strings. -/
def padStart2 (s : String) : String :=
  if s.length < 2 then String.mk (List.replicate (2 - s.length) '0') ++ s else s

/-- The `currentTime` template string: padded hours, ':', padded minutes. -/
def currentTimeString (now : Instant) : String :=
  padStart2 (toString now.hours) ++ ":" ++ padStart2 (toString now.minutes)

/-- `DAYS_OF_WEEK[now.getDay()]`. -/
def currentDayString (now : Instant) : String :=
  DAYS_OF_WEEK.getD now.day.val ""

/-- The inner `for (const alarm of group.alarms)` loop.  A hit both emits the
notification and overwrites the dedup pair, then returns; a denied or
non-matching alarm leaves the state untouched and the loop continues. -/
def scanAlarms (currentDay currentTime : String) (nowTime : Int) (group : AlarmGroup)
    (st : DedupSt) : List Alarm → Except TickErr (DedupSt × List Firing)
  | [] => .ok (st, [])
  | alarm :: rest =>
    if !alarm.isEnabled || alarm.time != currentTime then
      scanAlarms currentDay currentTime nowTime group st rest
    else
      match alarm.days with
      | none => .error (.typeError "alarm.days is undefined")
      | some days =>
        let isToday := days.length == 0 || days.contains currentDay
        if isToday && (some alarm.id != st.lastNotifiedAlarmId ||
            decide (nowTime - st.lastNotificationTime > 60000)) then
          .ok (⟨some alarm.id, nowTime⟩, [⟨alarm, group⟩])
        else
          scanAlarms currentDay currentTime nowTime group st rest

/-- The outer `for (const group of backgroundAlarmGroups)` loop. -/
def scanGroups (currentDay currentTime : String) (nowTime : Int)
    (st : DedupSt) : List AlarmGroup → Except TickErr (DedupSt × List Firing)
  | [] => .ok (st, [])
  | group :: rest =>
    if !group.isEnabled then
      scanGroups currentDay currentTime nowTime st rest
    else
      match group.alarms with
      | none => .error (.typeError "group.alarms is not iterable")
      | some alarms =>
        match scanAlarms currentDay currentTime nowTime group st alarms with
        | .error e => .error e
        | .ok (st2, f :: fs) => .ok (st2, f :: fs)
        | .ok (st2, []) => scanGroups currentDay currentTime nowTime st2 rest

/-- `checkBackgroundAlarms()`: guard against a null/empty snapshot, compute
the current weekday tag and "HH:MM" string, then scan. -/
def checkBackgroundAlarms (backgroundAlarmGroups : Option (List AlarmGroup))
    (st : DedupSt) (now : Instant) : Except TickErr (DedupSt × List Firing) :=
  match backgroundAlarmGroups with
  | none => .ok (st, [])
  | some groups =>
    if groups.length == 0 then .ok (st, [])
    else
      scanGroups (currentDayString now) (currentTimeString now) now.epochMs st groups

/-- The service worker's module-level mutable state. -/
structure SWState where
  alarmCheckInterval : Option Nat
  backgroundAlarmGroups : Option (List AlarmGroup)
  dedup : DedupSt
  activeTimers : List Nat
  nextHandle : Nat
deriving Repr, DecidableEq

/-- The initial module state: no timer, empty group list, null dedup id. -/
def initialSWState : SWState :=
  ⟨none, some [], ⟨none, 0⟩, [], 0⟩

/-- The `UPDATE_ALARMS` message handler: store the new snapshot, clear any
previously armed interval, arm a fresh one. -/
def onUpdateAlarms (eventAlarms : Option (List AlarmGroup)) (s : SWState) : SWState :=
  let s1 : SWState := { s with backgroundAlarmGroups := eventAlarms }
  let s2 : SWState :=
    match s1.alarmCheckInterval with
    | some h => { s1 with activeTimers := s1.activeTimers.erase h }
    | none => s1
  { s2 with
    alarmCheckInterval := some s2.nextHandle
    activeTimers := s2.activeTimers ++ [s2.nextHandle]
    nextHandle := s2.nextHandle + 1 }

/-- One periodic tick acting on the whole module state: only the dedup pair
may change; groups and timers are read but never written. -/
def tick (s : SWState) (now : Instant) : Except TickErr (SWState × List Firing) :=
  match checkBackgroundAlarms s.backgroundAlarmGroups s.dedup now with
  | .error e => .error e
  | .ok (st2, fs) => .ok ({ s with dedup := st2 }, fs)

/-- The alarm-level due/granted test, mirroring the branch structure of the
scan: enabled, exact time-string match, day list present and matching, and
the dedup guard granting. -/
def grantedAlarmB (currentDay currentTime : String) (nowTime : Int)
    (st : DedupSt) (a : Alarm) : Bool :=
  if !a.isEnabled || a.time != currentTime then false
  else
    match a.days with
    | none => false
    | some days =>
      (days.length == 0 || days.contains currentDay) &&
        (some a.id != st.lastNotifiedAlarmId ||
          decide (nowTime - st.lastNotificationTime > 60000))

/-- The scan candidates in store order: for each enabled group, its alarms
paired with the group; disabled groups contribute nothing. -/
def enabledPairs : List AlarmGroup → List (AlarmGroup × Alarm)
  | [] => []
  | g :: rest =>
    (if g.isEnabled then (g.alarms.getD []).map (fun a => (g, a)) else []) ++
      enabledPairs rest

theorem scanAlarms_ok_nil (cd ct : String) (nt : Int) (g : AlarmGroup) :
    ∀ (l : List Alarm) (st st' : DedupSt),
      scanAlarms cd ct nt g st l = .ok (st', []) →
      st' = st ∧ ∀ a ∈ l, grantedAlarmB cd ct nt st a = false := by
  intro l
  induction l with
  | nil =>
    intro st st' h
    simp only [scanAlarms] at h
    injection h with h1
    injection h1 with h1 _
    exact ⟨h1.symm, by simp⟩
  | cons a rest ih =>
    intro st st' h
    simp only [scanAlarms] at h
    split at h
    · rcases ih st st' h with ⟨h1, h2⟩
      refine ⟨h1, ?_⟩
      intro x hx
      rcases List.mem_cons.mp hx with hx | hx
      · subst hx
        simp only [grantedAlarmB]
        rw [if_pos]
        assumption
      · exact h2 x hx
    · rename_i hcond
      split at h
      · exact absurd h (by simp)
      · rename_i days hdays
        split at h
        · exact absurd h (by simp)
        · rename_i hfire
          rcases ih st st' h with ⟨h1, h2⟩
          refine ⟨h1, ?_⟩
          intro x hx
          rcases List.mem_cons.mp hx with hx | hx
          · subst hx
            simp only [grantedAlarmB]
            rw [if_neg hcond, hdays]
            simpa using hfire
          · exact h2 x hx

theorem scanAlarms_ok_fire (cd ct : String) (nt : Int) (g : AlarmGroup) :
    ∀ (l : List Alarm) (st st' : DedupSt) (f : Firing) (fs : List Firing),
      scanAlarms cd ct nt g st l = .ok (st', f :: fs) →
      fs = [] ∧ f.group = g ∧ st' = ⟨some f.alarm.id, nt⟩ ∧
        l.find? (grantedAlarmB cd ct nt st) = some f.alarm := by
  intro l
  induction l with
  | nil =>
    intro st st' f fs h
    simp only [scanAlarms] at h
    exact absurd h (by simp)
  | cons a rest ih =>
    intro st st' f fs h
    simp only [scanAlarms] at h
    split at h
    · rename_i hcond
      rcases ih st st' f fs h with ⟨h1, h2, h3, h4⟩
      refine ⟨h1, h2, h3, ?_⟩
      rw [List.find?_cons_of_neg]
      · exact h4
      · simp only [grantedAlarmB]
        rw [if_pos hcond]
        simp
    · rename_i hcond
      split at h
      · exact absurd h (by simp)
      · rename_i days hdays
        split at h
        · rename_i hfire
          injection h with h1
          injection h1 with hst hfs
          injection hfs with hf hfs
          subst hf
          refine ⟨hfs.symm, rfl, hst.symm, ?_⟩
          rw [List.find?_cons_of_pos]
          simp only [grantedAlarmB]
          rw [if_neg hcond, hdays]
          simpa using hfire
        · rename_i hfire
          rcases ih st st' f fs h with ⟨h1, h2, h3, h4⟩
          refine ⟨h1, h2, h3, ?_⟩
          rw [List.find?_cons_of_neg]
          · exact h4
          · simp only [grantedAlarmB]
            rw [if_neg hcond, hdays]
            simpa using hfire

theorem scanGroups_ok_nil (cd ct : String) (nt : Int) :
    ∀ (gs : List AlarmGroup) (st st' : DedupSt),
      scanGroups cd ct nt st gs = .ok (st', []) →
      st' = st ∧ ∀ p ∈ enabledPairs gs, grantedAlarmB cd ct nt st p.2 = false := by
  intro gs
  induction gs with
  | nil =>
    intro st st' h
    simp only [scanGroups] at h
    injection h with h1
    injection h1 with h1 _
    exact ⟨h1.symm, by simp [enabledPairs]⟩
  | cons g rest ih =>
    intro st st' h
    simp only [scanGroups] at h
    split at h
    · rename_i hg
      have hg' : g.isEnabled = false := by simpa using hg
      rcases ih st st' h with ⟨h1, h2⟩
      refine ⟨h1, ?_⟩
      intro p hp
      simp only [enabledPairs, hg'] at hp
      simp only [Bool.false_eq_true, if_false, List.nil_append] at hp
      exact h2 p hp
    · rename_i hg
      have hg' : g.isEnabled = true := by simpa using hg
      split at h
      · exact absurd h (by simp)
      · rename_i alarms halarms
        split at h
        · exact absurd h (by simp)
        · exact absurd h (by simp)
        · rename_i st2 hscan
          rcases scanAlarms_ok_nil cd ct nt g alarms st st2 hscan with ⟨hst2, hall⟩
          rw [hst2] at h
          rcases ih st st' h with ⟨h1, h2⟩
          refine ⟨h1, ?_⟩
          intro p hp
          simp only [enabledPairs, hg', halarms] at hp
          simp only [if_true, Option.getD_some] at hp
          rcases List.mem_append.mp hp with hp | hp
          · rcases List.mem_map.mp hp with ⟨a, ha, hpa⟩
            subst hpa
            exact hall a ha
          · exact h2 p hp

theorem scanGroups_ok_fire (cd ct : String) (nt : Int) :
    ∀ (gs : List AlarmGroup) (st st' : DedupSt) (f : Firing) (fs : List Firing),
      scanGroups cd ct nt st gs = .ok (st', f :: fs) →
      fs = [] ∧ st' = ⟨some f.alarm.id, nt⟩ ∧ f.group.isEnabled = true ∧
        f.group ∈ gs ∧ f.alarm ∈ f.group.alarms.getD [] ∧
        grantedAlarmB cd ct nt st f.alarm = true ∧
        (enabledPairs gs).find? (fun p => grantedAlarmB cd ct nt st p.2) =
          some (f.group, f.alarm) := by
  intro gs
  induction gs with
  | nil =>
    intro st st' f fs h
    simp only [scanGroups] at h
    exact absurd h (by simp)
  | cons g rest ih =>
    intro st st' f fs h
    simp only [scanGroups] at h
    split at h
    · rename_i hg
      have hg' : g.isEnabled = false := by simpa using hg
      rcases ih st st' f fs h with ⟨h1, h2, h3, h4, h5, h6, h7⟩
      refine ⟨h1, h2, h3, List.mem_cons_of_mem g h4, h5, h6, ?_⟩
      simp only [enabledPairs, hg']
      simp only [Bool.false_eq_true, if_false, List.nil_append]
      exact h7
    · rename_i hg
      have hg' : g.isEnabled = true := by simpa using hg
      split at h
      · exact absurd h (by simp)
      · rename_i alarms halarms
        split at h
        · exact absurd h (by simp)
        · rename_i st2 f2 fs2 hscan
          injection h with h1
          injection h1 with hst hfs
          injection hfs with hf hfs2
          subst hf
          subst hst
          rcases scanAlarms_ok_fire cd ct nt g alarms st st2 f2 fs2 hscan with
            ⟨hfs0, hgrp, hst2, hfind⟩
          have hmem : f2.alarm ∈ alarms := by
            have := List.mem_of_find?_eq_some hfind
            exact this
          have hgr : grantedAlarmB cd ct nt st f2.alarm = true := List.find?_some hfind
          refine ⟨by rw [← hfs2]; exact hfs0, by rw [hst2], by rw [hgrp]; exact hg',
            by rw [hgrp]; exact List.mem_cons_self g rest,
            by rw [hgrp, halarms]; simpa using hmem, hgr, ?_⟩
          simp only [enabledPairs, hg', halarms, if_true, Option.getD_some]
          rw [List.find?_append]
          rw [List.find?_map]
          have hcomp :
              ((fun p : AlarmGroup × Alarm => grantedAlarmB cd ct nt st p.2) ∘
                fun a => (g, a)) = grantedAlarmB cd ct nt st := rfl
          rw [hcomp, hfind]
          simp [hgrp]
        · rename_i st2 hscan
          rcases scanAlarms_ok_nil cd ct nt g alarms st st2 hscan with ⟨hst2, hall⟩
          rw [hst2] at h
          rcases ih st st' f fs h with ⟨h1, h2, h3, h4, h5, h6, h7⟩
          refine ⟨h1, h2, h3, List.mem_cons_of_mem g h4, h5, h6, ?_⟩
          simp only [enabledPairs, hg', halarms, if_true, Option.getD_some]
          rw [List.find?_append, List.find?_map]
          have hcomp :
              ((fun p : AlarmGroup × Alarm => grantedAlarmB cd ct nt st p.2) ∘
                fun a => (g, a)) = grantedAlarmB cd ct nt st := rfl
          rw [hcomp]
          have hnone : alarms.find? (grantedAlarmB cd ct nt st) = none :=
            List.find?_eq_none.mpr (by intro x hx; simp [hall x hx])
          rw [hnone]
          simpa using h7

theorem grantedAlarmB_eq_true_iff (cd ct : String) (nt : Int) (st : DedupSt)
    (a : Alarm) :
    grantedAlarmB cd ct nt st a = true ↔
      a.isEnabled = true ∧ a.time = ct ∧
        ∃ ds, a.days = some ds ∧ (ds = [] ∨ cd ∈ ds) ∧
          (some a.id ≠ st.lastNotifiedAlarmId ∨
            nt - st.lastNotificationTime > 60000) := by
  simp only [grantedAlarmB]
  split
  · rename_i hcond
    simp only [Bool.or_eq_true, Bool.not_eq_eq_eq_not, Bool.not_true, bne_iff_ne,
      ne_eq] at hcond
    constructor
    · intro h
      exact absurd h (by simp)
    · rintro ⟨h1, h2, _⟩
      rcases hcond with hc | hc
      · rw [h1] at hc
        exact absurd hc (by simp)
      · exact absurd h2 hc
  · rename_i hcond
    simp only [Bool.or_eq_true, Bool.not_eq_eq_eq_not, Bool.not_true, bne_iff_ne,
      ne_eq, not_or, not_not] at hcond
    rcases hcond with ⟨hen0, htime⟩
    have hen : a.isEnabled = true := by simpa using hen0
    split
    · rename_i hdays
      simp only [hdays]
      constructor
      · intro h
        exact absurd h (by simp)
      · rintro ⟨_, _, ds, hds, _⟩
        cases hds
    · rename_i ds hds
      simp only [Bool.and_eq_true, Bool.or_eq_true, beq_iff_eq, bne_iff_ne, ne_eq,
        decide_eq_true_eq, List.length_eq_zero, hds, Option.some.injEq]
      constructor
      · rintro ⟨hday, hguard⟩
        refine ⟨hen, htime, ds, rfl, ?_, hguard⟩
        rcases hday with hday | hday
        · exact Or.inl hday
        · exact Or.inr (by simpa [List.contains, List.elem_iff] using hday)
      · rintro ⟨_, _, ds2, hds2, hday, hguard⟩
        subst hds2
        refine ⟨?_, hguard⟩
        rcases hday with hday | hday
        · exact Or.inl hday
        · exact Or.inr (by simpa [List.contains, List.elem_iff] using hday)

theorem checkBackgroundAlarms_ok_nil (groups : List AlarmGroup) (st st' : DedupSt)
    (now : Instant) (h : checkBackgroundAlarms (some groups) st now = .ok (st', [])) :
    st' = st := by
  simp only [checkBackgroundAlarms] at h
  split at h
  · injection h with h1
    injection h1 with h1 _
    exact h1.symm
  · exact (scanGroups_ok_nil _ _ _ groups st st' h).1

theorem checkBackgroundAlarms_ok_fire (groups : List AlarmGroup) (st st' : DedupSt)
    (now : Instant) (f : Firing) (fs : List Firing)
    (h : checkBackgroundAlarms (some groups) st now = .ok (st', f :: fs)) :
    fs = [] ∧ st' = ⟨some f.alarm.id, now.epochMs⟩ ∧ f.group.isEnabled = true ∧
      f.group ∈ groups ∧ f.alarm ∈ f.group.alarms.getD [] ∧
      grantedAlarmB (currentDayString now) (currentTimeString now) now.epochMs st
        f.alarm = true ∧
      (enabledPairs groups).find?
          (fun p =>
            grantedAlarmB (currentDayString now) (currentTimeString now) now.epochMs
              st p.2) =
        some (f.group, f.alarm) := by
  simp only [checkBackgroundAlarms] at h
  split at h
  · exact absurd h (by simp)
  · exact scanGroups_ok_fire _ _ _ groups st st' f fs h

theorem checkBackgroundAlarms_ok_nil' (bg : Option (List AlarmGroup))
    (st st' : DedupSt) (now : Instant)
    (h : checkBackgroundAlarms bg st now = .ok (st', [])) : st' = st := by
  cases bg with
  | none =>
    simp only [checkBackgroundAlarms] at h
    injection h with h1
    injection h1 with h1 _
    exact h1.symm
  | some groups => exact checkBackgroundAlarms_ok_nil groups st st' now h

/-- Modelled from the spec: the claimed per-trigger-id Dedup Guard contract —
`shouldFire(triggerId, now)` grants iff no prior firing is recorded for
`triggerId`, or `now - lastFired(triggerId) > cooldown`.  Used only to compare
the claimed contract with the code's single-pair guard. -/
def shouldFireSpec (lastFired : String → Option Int) (cooldown : Int)
    (triggerId : String) (now : Int) : Bool :=
  match lastFired triggerId with
  | none => true
  | some t => decide (now - t > cooldown)

def alarmA : Alarm := ⟨"a", "Alarm A", "07:00", some [], true⟩

def alarmB : Alarm := ⟨"b", "Alarm B", "07:00", some [], true⟩

def groupAB : AlarmGroup := ⟨"morning", true, some [alarmA, alarmB]⟩

def monday0700 (ms : Int) : Instant := ⟨⟨1, by decide⟩, 7, 0, ms⟩

def alarmX : Alarm := ⟨"x", "Alarm X", "08:30", some [], true⟩

def alarmY : Alarm := ⟨"y", "Alarm Y", "08:30", some [], true⟩

def groupXY : AlarmGroup := ⟨"pair", true, some [alarmX, alarmY]⟩

def tuesday0830 (ms : Int) : Instant := ⟨⟨2, by decide⟩, 8, 30, ms⟩

/-- The per-id history of the `groupXY` run used against the claimed per-id
contract: `x` last fired at 0 ms, `y` at 25000 ms. -/
def lastFiredXY : String → Option Int := fun triggerId =>
  if triggerId = "x" then some 0 else if triggerId = "y" then some 25000 else none

/-- C1 is false on the code: with alarms `a` and `b` both due at 07:00, `a`
fires at 0 ms, `b` fires at 20000 ms, and `a` fires again at 40000 ms — only
40 s after its own firing, inside the 60 s cooldown — because the guard only
remembers the single most recent firing and `b`'s firing displaced `a`. -/
theorem C1_counterexample :
    checkBackgroundAlarms (some [groupAB]) ⟨none, 0⟩ (monday0700 0) =
        .ok (⟨some "a", 0⟩, [⟨alarmA, groupAB⟩]) ∧
      checkBackgroundAlarms (some [groupAB]) ⟨some "a", 0⟩ (monday0700 20000) =
        .ok (⟨some "b", 20000⟩, [⟨alarmB, groupAB⟩]) ∧
      checkBackgroundAlarms (some [groupAB]) ⟨some "b", 20000⟩ (monday0700 40000) =
        .ok (⟨some "a", 40000⟩, [⟨alarmA, groupAB⟩]) ∧
      ¬((40000 : Int) - 0 > 60000) :=
  ⟨rfl, rfl, rfl, by decide⟩

/-- C1 (amended): a trigger that is still the recorded last-notified id does
not fire again until more than the cooldown (60000 ms) has elapsed since the
recorded last notification time; since the guard keeps only the single most
recent (id, time) pair, a firing of a different id in between can re-enable an
id within its cooldown. -/
theorem C1_theorem (groups : List AlarmGroup) (st st' : DedupSt) (now : Instant)
    (f : Firing) (fs : List Firing)
    (h : checkBackgroundAlarms (some groups) st now = .ok (st', fs))
    (hf : f ∈ fs) (hid : some f.alarm.id = st.lastNotifiedAlarmId) :
    now.epochMs - st.lastNotificationTime > 60000 := by
  cases fs with
  | nil => cases hf
  | cons f0 fs0 =>
    rcases checkBackgroundAlarms_ok_fire groups st st' now f0 fs0 h with
      ⟨hfs, _, _, _, _, hgr, _⟩
    have hf0 : f = f0 := by
      rcases List.mem_cons.mp hf with h1 | h1
      · exact h1
      · rw [hfs] at h1
        cases h1
    subst hf0
    rcases (grantedAlarmB_eq_true_iff _ _ _ _ _).mp hgr with
      ⟨_, _, ds, _, _, hguard⟩
    rcases hguard with hne | helapsed
    · exact absurd hid hne
    · exact helapsed

/-- C1 witness: the same id `a` may fire again once more than 60 s have
elapsed since the recorded notification time. -/
theorem C1_witness :
    checkBackgroundAlarms (some [groupAB]) ⟨some "a", 0⟩ (monday0700 70000) =
        .ok (⟨some "a", 70000⟩, [⟨alarmA, groupAB⟩]) ∧
      (monday0700 70000).epochMs -
          (⟨some "a", 0⟩ : DedupSt).lastNotificationTime > 60000 :=
  ⟨rfl,
    C1_theorem [groupAB] ⟨some "a", 0⟩ ⟨some "a", 70000⟩ (monday0700 70000)
      ⟨alarmA, groupAB⟩ [⟨alarmA, groupAB⟩] rfl (by simp) rfl⟩

/-- C2 is false on the code: the guard is not a per-id map.  `x` fires at
0 ms and `y` at 25000 ms; at 50000 ms the code grants `x` again (it is no
longer the last-notified id), although the claimed per-id contract — with
`x`'s own recorded firing at 0 ms and cooldown 60000 ms — denies it;
recording `y`'s firing had displaced `x`'s record. -/
theorem C2_counterexample :
    checkBackgroundAlarms (some [groupXY]) ⟨none, 0⟩ (tuesday0830 0) =
        .ok (⟨some "x", 0⟩, [⟨alarmX, groupXY⟩]) ∧
      checkBackgroundAlarms (some [groupXY]) ⟨some "x", 0⟩ (tuesday0830 25000) =
        .ok (⟨some "y", 25000⟩, [⟨alarmY, groupXY⟩]) ∧
      checkBackgroundAlarms (some [groupXY]) ⟨some "y", 25000⟩ (tuesday0830 50000) =
        .ok (⟨some "x", 50000⟩, [⟨alarmX, groupXY⟩]) ∧
      shouldFireSpec lastFiredXY 60000 "x" 50000 = false :=
  ⟨rfl, rfl, rfl, by decide⟩

/-- C2 (amended): the Dedup Guard's state is the single pair
(`lastNotifiedAlarmId`, `lastNotificationTime`); permission is granted iff
the candidate id differs from the last-notified id or more than 60000 ms have
elapsed; a tick that emits no firing leaves the pair unchanged, and a firing
overwrites the whole pair with (fired id, now), discarding the previous
record. -/
theorem C2_theorem (groups : List AlarmGroup) (st st' : DedupSt) (now : Instant)
    (fs : List Firing)
    (h : checkBackgroundAlarms (some groups) st now = .ok (st', fs)) :
    (fs = [] → st' = st) ∧
      ∀ f ∈ fs,
        st' = ⟨some f.alarm.id, now.epochMs⟩ ∧
          (some f.alarm.id ≠ st.lastNotifiedAlarmId ∨
            now.epochMs - st.lastNotificationTime > 60000) := by
  constructor
  · intro hfs
    subst hfs
    exact checkBackgroundAlarms_ok_nil groups st st' now h
  · intro f hf
    cases fs with
    | nil => cases hf
    | cons f0 fs0 =>
      rcases checkBackgroundAlarms_ok_fire groups st st' now f0 fs0 h with
        ⟨hfs, hst, _, _, _, hgr, _⟩
      have hf0 : f = f0 := by
        rcases List.mem_cons.mp hf with h1 | h1
        · exact h1
        · rw [hfs] at h1
          cases h1
      subst hf0
      rcases (grantedAlarmB_eq_true_iff _ _ _ _ _).mp hgr with
        ⟨_, _, ds, _, _, hguard⟩
      exact ⟨hst, hguard⟩

/-- C2 witness: a granted firing overwrites the pair with the fired id and
the tick's instant. -/
theorem C2_witness :
    (([⟨alarmX, groupXY⟩] : List Firing) = [] →
        (⟨some "x", 0⟩ : DedupSt) = ⟨none, 0⟩) ∧
      ∀ f ∈ ([⟨alarmX, groupXY⟩] : List Firing),
        (⟨some "x", 0⟩ : DedupSt) = ⟨some f.alarm.id, (tuesday0830 0).epochMs⟩ ∧
          (some f.alarm.id ≠ (⟨none, 0⟩ : DedupSt).lastNotifiedAlarmId ∨
            (tuesday0830 0).epochMs -
                (⟨none, 0⟩ : DedupSt).lastNotificationTime > 60000) :=
  C2_theorem [groupXY] ⟨none, 0⟩ ⟨some "x", 0⟩ (tuesday0830 0)
    [⟨alarmX, groupXY⟩] rfl

def badDaysAlarm : Alarm := ⟨"d1", "No days", "09:15", none, true⟩

def wednesday0915 : Instant := ⟨⟨3, by decide⟩, 9, 15, 100⟩

/-- C3 is false on the code: an enabled group whose `alarms` field is absent
makes the tick throw a `TypeError` (iterating `undefined`), and an enabled,
time-matching alarm whose `days` field is absent makes it throw on
`alarm.days.length` — the scan is not resilient to partially-formed
snapshots. -/
theorem C3_counterexample :
    checkBackgroundAlarms (some [⟨"broken", true, none⟩]) ⟨none, 0⟩
        wednesday0915 =
        .error (.typeError "group.alarms is not iterable") ∧
      checkBackgroundAlarms (some [⟨"days", true, some [badDaysAlarm]⟩]) ⟨none, 0⟩
          wednesday0915 =
        .error (.typeError "alarm.days is undefined") :=
  ⟨rfl, rfl⟩

/-- C3 (amended): a tick is not resilient to absent `alarms`/`days` fields —
whenever the scan reaches an enabled group whose `alarms` field is absent, it
raises a `TypeError` instead of treating the group as having no triggers
(and likewise for an absent `days` field on an enabled, time-matching
trigger); only a missing snapshot, an empty group list and absent boolean
flags are tolerated. -/
theorem C3_theorem (name : String) (rest : List AlarmGroup) (st : DedupSt)
    (now : Instant) :
    checkBackgroundAlarms (some (⟨name, true, none⟩ :: rest)) st now =
      .error (.typeError "group.alarms is not iterable") := by
  simp [checkBackgroundAlarms, scanGroups]

def alarmP : Alarm := ⟨"p", "Alarm P", "12:00", some [], true⟩

def alarmQ : Alarm := ⟨"q", "Alarm Q", "12:00", some [], true⟩

def groupP : AlarmGroup := ⟨"gp", true, some [alarmP]⟩

def groupQ : AlarmGroup := ⟨"gq", true, some [alarmQ]⟩

def friday1200 : Instant := ⟨⟨5, by decide⟩, 12, 0, 500⟩

/-- C4: a tick emits at most one firing, and the emitted firing is the first
granted match in store order — group order, then alarm order within the
group, with disabled groups and alarms skipped. -/
theorem C4_theorem (groups : List AlarmGroup) (st st' : DedupSt) (now : Instant)
    (fs : List Firing)
    (h : checkBackgroundAlarms (some groups) st now = .ok (st', fs)) :
    fs.length ≤ 1 ∧
      ∀ f ∈ fs,
        (enabledPairs groups).find?
            (fun p =>
              grantedAlarmB (currentDayString now) (currentTimeString now)
                now.epochMs st p.2) =
          some (f.group, f.alarm) := by
  cases fs with
  | nil => exact ⟨by simp, by intro f hf; cases hf⟩
  | cons f0 fs0 =>
    rcases checkBackgroundAlarms_ok_fire groups st st' now f0 fs0 h with
      ⟨hfs, _, _, _, _, _, hfind⟩
    subst hfs
    refine ⟨by simp, ?_⟩
    intro f hf
    rcases List.mem_cons.mp hf with h1 | h1
    · subst h1
      exact hfind
    · cases h1

/-- C4 witness: with `p` and `q` simultaneously due in two enabled groups,
exactly the first candidate `p` fires. -/
theorem C4_witness :
    ([⟨alarmP, groupP⟩] : List Firing).length ≤ 1 ∧
      ∀ f ∈ ([⟨alarmP, groupP⟩] : List Firing),
        (enabledPairs [groupP, groupQ]).find?
            (fun p =>
              grantedAlarmB (currentDayString friday1200)
                (currentTimeString friday1200) friday1200.epochMs ⟨none, 0⟩ p.2) =
          some (f.group, f.alarm) :=
  C4_theorem [groupP, groupQ] ⟨none, 0⟩ ⟨some "p", 500⟩ friday1200
    [⟨alarmP, groupP⟩] rfl

/-- C5: with a fresh guard, an enabled trigger in an enabled group fires on a
tick iff its `time` string equals the padded "HH:MM" rendering of the current
minute exactly, and its day list is empty or contains the current weekday
tag. -/
theorem C5_theorem (name : String) (a : Alarm) (ds : List String) (now : Instant)
    (hen : a.isEnabled = true) (hds : a.days = some ds) :
    (checkBackgroundAlarms (some [⟨name, true, some [a]⟩]) ⟨none, 0⟩ now =
        .ok (⟨some a.id, now.epochMs⟩, [⟨a, ⟨name, true, some [a]⟩⟩])) ↔
      (a.time = currentTimeString now ∧
        (ds = [] ∨ currentDayString now ∈ ds)) := by
  constructor
  · intro h
    rcases checkBackgroundAlarms_ok_fire [⟨name, true, some [a]⟩] ⟨none, 0⟩
        ⟨some a.id, now.epochMs⟩ now ⟨a, ⟨name, true, some [a]⟩⟩ [] h with
      ⟨_, _, _, _, _, hgr, _⟩
    rcases (grantedAlarmB_eq_true_iff _ _ _ _ _).mp hgr with
      ⟨_, htime, ds2, hds2, hday, _⟩
    rw [hds] at hds2
    injection hds2 with e
    subst e
    exact ⟨htime, hday⟩
  · rintro ⟨htime, hday⟩
    rcases hday with hday | hday
    · subst hday
      simp [checkBackgroundAlarms, scanGroups, scanAlarms, hen, htime, hds]
    · simp [checkBackgroundAlarms, scanGroups, scanAlarms, hen, htime, hds,
        List.contains, List.elem_iff, hday]

def alarmS : Alarm := ⟨"s", "Sunday alarm", "07:30", some ["Sun"], true⟩

def sunday0730 : Instant := ⟨⟨0, by decide⟩, 7, 30, 250⟩

/-- C5 witness: a 07:30 Sunday-only alarm, evaluated on a Sunday at 07:30,
fires exactly because "07:30" matches and "Sun" is in its day list. -/
theorem C5_witness :
    alarmS.isEnabled = true ∧ alarmS.days = some ["Sun"] ∧
      ((checkBackgroundAlarms (some [⟨"wk", true, some [alarmS]⟩]) ⟨none, 0⟩
            sunday0730 =
          .ok (⟨some alarmS.id, sunday0730.epochMs⟩,
            [⟨alarmS, ⟨"wk", true, some [alarmS]⟩⟩])) ↔
        (alarmS.time = currentTimeString sunday0730 ∧
          (["Sun"] = [] ∨ currentDayString sunday0730 ∈ ["Sun"]))) :=
  ⟨rfl, rfl, C5_theorem "wk" alarmS ["Sun"] sunday0730 rfl rfl⟩

/-- C6: every emitted firing comes from an enabled alarm inside an enabled
group of the snapshot — a disabled alarm, or any alarm of a disabled group,
never fires. -/
theorem C6_theorem (groups : List AlarmGroup) (st st' : DedupSt) (now : Instant)
    (fs : List Firing) (f : Firing)
    (h : checkBackgroundAlarms (some groups) st now = .ok (st', fs))
    (hf : f ∈ fs) :
    f.group.isEnabled = true ∧ f.alarm.isEnabled = true ∧ f.group ∈ groups ∧
      f.alarm ∈ f.group.alarms.getD [] := by
  cases fs with
  | nil => cases hf
  | cons f0 fs0 =>
    rcases checkBackgroundAlarms_ok_fire groups st st' now f0 fs0 h with
      ⟨hfs, _, hgen, hgmem, hamem, hgr, _⟩
    have hf0 : f = f0 := by
      rcases List.mem_cons.mp hf with h1 | h1
      · exact h1
      · rw [hfs] at h1
        cases h1
    subst hf0
    rcases (grantedAlarmB_eq_true_iff _ _ _ _ _).mp hgr with ⟨haen, _⟩
    exact ⟨hgen, haen, hgmem, hamem⟩

/-- C6 witness: the 07:00 firing of alarm `a` comes from the enabled alarm
`a` in the enabled group `groupAB`. -/
theorem C6_witness :
    (⟨alarmA, groupAB⟩ : Firing).group.isEnabled = true ∧
      (⟨alarmA, groupAB⟩ : Firing).alarm.isEnabled = true ∧
      (⟨alarmA, groupAB⟩ : Firing).group ∈ [groupAB] ∧
      (⟨alarmA, groupAB⟩ : Firing).alarm ∈
        (⟨alarmA, groupAB⟩ : Firing).group.alarms.getD [] :=
  C6_theorem [groupAB] ⟨none, 42⟩ ⟨some "a", 0⟩ (monday0700 0)
    [⟨alarmA, groupAB⟩] ⟨alarmA, groupAB⟩ rfl (by simp)

/-- C7: a tick with a missing snapshot (`null`) or an empty snapshot
(`groups: []`) is a no-op — it emits no firing, leaves the dedup record
unchanged, and raises no error. -/
theorem C7_theorem (st : DedupSt) (now : Instant) :
    checkBackgroundAlarms none st now = .ok (st, []) ∧
      checkBackgroundAlarms (some []) st now = .ok (st, []) :=
  ⟨rfl, rfl⟩

/-- C8: a tick never mutates the Trigger Store or the timer bookkeeping —
the held snapshot, the interval handle, the active-timer table and the
handle counter are all unchanged — and the dedup record changes only when a
firing is emitted. -/
theorem C8_theorem (s : SWState) (now : Instant) (s' : SWState) (fs : List Firing)
    (h : tick s now = .ok (s', fs)) :
    s'.backgroundAlarmGroups = s.backgroundAlarmGroups ∧
      s'.alarmCheckInterval = s.alarmCheckInterval ∧
      s'.activeTimers = s.activeTimers ∧ s'.nextHandle = s.nextHandle ∧
      (fs = [] → s'.dedup = s.dedup) := by
  simp only [tick] at h
  split at h
  · exact absurd h (by simp)
  · rename_i st2 fs2 hcheck
    injection h with h1
    injection h1 with hs hfs
    subst hfs
    subst hs
    refine ⟨rfl, rfl, rfl, rfl, ?_⟩
    intro hnil
    subst hnil
    have := checkBackgroundAlarms_ok_nil' s.backgroundAlarmGroups s.dedup st2 now
      hcheck
    simp [this]

/-- C8 witness: a no-firing tick on the initial state returns the state
entirely unchanged. -/
theorem C8_witness :
    initialSWState.backgroundAlarmGroups = initialSWState.backgroundAlarmGroups ∧
      initialSWState.alarmCheckInterval = initialSWState.alarmCheckInterval ∧
      initialSWState.activeTimers = initialSWState.activeTimers ∧
      initialSWState.nextHandle = initialSWState.nextHandle ∧
      (([] : List Firing) = [] → initialSWState.dedup = initialSWState.dedup) :=
  C8_theorem initialSWState wednesday0915 initialSWState [] rfl

/-- The timer invariant: the stored interval handle is armed and is the only
active timer. -/
def timerInvariant (s : SWState) : Prop :=
  ∃ hnd, s.alarmCheckInterval = some hnd ∧ s.activeTimers = [hnd]

theorem onUpdateAlarms_invariant (u : Option (List AlarmGroup)) (s : SWState)
    (hs : (s.alarmCheckInterval = none ∧ s.activeTimers = []) ∨ timerInvariant s) :
    timerInvariant (onUpdateAlarms u s) := by
  rcases hs with ⟨h1, h2⟩ | ⟨hnd, h1, h2⟩
  · refine ⟨s.nextHandle, ?_, ?_⟩
    · simp [onUpdateAlarms, h1]
    · simp [onUpdateAlarms, h1, h2]
  · refine ⟨s.nextHandle, ?_, ?_⟩
    · simp [onUpdateAlarms, h1]
    · simp [onUpdateAlarms, h1, h2, List.erase_cons_head]

theorem foldl_onUpdateAlarms_invariant (updates : List (Option (List AlarmGroup))) :
    ∀ (s : SWState), timerInvariant s →
      timerInvariant (updates.foldl (fun s u => onUpdateAlarms u s) s) := by
  induction updates with
  | nil => intro s hs; exact hs
  | cons u rest ih =>
    intro s hs
    simp only [List.foldl_cons]
    exact ih (onUpdateAlarms u s) (onUpdateAlarms_invariant u s (Or.inr hs))

/-- C9: after any nonempty sequence of `UPDATE_ALARMS` messages starting from
the initial state, the stored interval handle is armed and is the single
active timer — each update cancels the previously armed interval before
arming a new one, so repeated updates never leave two timers running. -/
theorem C9_theorem (updates : List (Option (List AlarmGroup)))
    (h : updates ≠ []) :
    ∃ hnd,
      (updates.foldl (fun s u => onUpdateAlarms u s)
          initialSWState).alarmCheckInterval = some hnd ∧
        (updates.foldl (fun s u => onUpdateAlarms u s)
            initialSWState).activeTimers = [hnd] := by
  cases updates with
  | nil => exact absurd rfl h
  | cons u rest =>
    simp only [List.foldl_cons]
    exact foldl_onUpdateAlarms_invariant rest (onUpdateAlarms u initialSWState)
      (onUpdateAlarms_invariant u initialSWState (Or.inl ⟨rfl, rfl⟩))

/-- C9 witness: after two updates exactly one timer is active. -/
theorem C9_witness :
    ∃ hnd,
      (([some [groupP], some [groupQ]].foldl (fun s u => onUpdateAlarms u s)
          initialSWState)).alarmCheckInterval = some hnd ∧
        (([some [groupP], some [groupQ]].foldl (fun s u => onUpdateAlarms u s)
            initialSWState)).activeTimers = [hnd] :=
  C9_theorem [some [groupP], some [groupQ]] (by simp)

def alarmPad : Alarm := ⟨"pad", "Padded time", "07:00", some [], true⟩

def alarmRaw : Alarm := ⟨"raw", "Unpadded time", "7:00", some [], true⟩

def groupPad : AlarmGroup := ⟨"pads", true, some [alarmRaw, alarmPad]⟩

def saturday0700 : Instant := ⟨⟨6, by decide⟩, 7, 0, 900⟩

/-- C10: due-matching is exact string equality against the zero-padded
"HH:MM" rendering of the current minute: every emitted firing's alarm has
exactly that time string, so an alarm whose `time` is any other string (for
example unpadded "7:00") never fires. -/
theorem C10_theorem (groups : List AlarmGroup) (st st' : DedupSt) (now : Instant)
    (fs : List Firing) (f : Firing) (a : Alarm)
    (h : checkBackgroundAlarms (some groups) st now = .ok (st', fs))
    (hf : f ∈ fs) (ha : a.time ≠ currentTimeString now) :
    f.alarm.time = currentTimeString now ∧ f.alarm ≠ a := by
  cases fs with
  | nil => cases hf
  | cons f0 fs0 =>
    rcases checkBackgroundAlarms_ok_fire groups st st' now f0 fs0 h with
      ⟨hfs, _, _, _, _, hgr, _⟩
    have hf0 : f = f0 := by
      rcases List.mem_cons.mp hf with h1 | h1
      · exact h1
      · rw [hfs] at h1
        cases h1
    subst hf0
    rcases (grantedAlarmB_eq_true_iff _ _ _ _ _).mp hgr with ⟨_, htime, _⟩
    refine ⟨htime, ?_⟩
    intro he
    rw [he] at htime
    exact ha htime

/-- C10 witness: at 07:00 the padded alarm fires while the "7:00" alarm,
scanned first, is skipped by the exact string comparison. -/
theorem C10_witness :
    (⟨alarmPad, groupPad⟩ : Firing).alarm.time = currentTimeString saturday0700 ∧
      (⟨alarmPad, groupPad⟩ : Firing).alarm ≠ alarmRaw :=
  C10_theorem [groupPad] ⟨none, 0⟩ ⟨some "pad", 900⟩ saturday0700
    [⟨alarmPad, groupPad⟩] ⟨alarmPad, groupPad⟩ alarmRaw rfl (by simp)
    (by decide)
